import Mathlib

/-!
Verification of the atreugo routing-and-middleware layer: a shallow embedding
of the router (`router.go`) — middleware-chain construction, request dispatch,
group-prefix concatenation, route registration and the OPTIONS view builder —
together with theorems checking the documented behaviour.
-/

namespace Atreugo

/-- Errors returned by views and middlewares (Go `error` values), identified
by a numeric code. -/
abbrev Err := Nat

/-- Modelled from the spec: the per-request context wrapper (type `RequestCtx`,
declared outside the routing file).  It carries the chain-control flag `next`,
the `skipView` flag, the response status code and response headers used by the
dispatch loop in `Router.handler`, plus `log`, the sequence of observable
writes middlewares/views made to the response. -/
structure RequestCtx where
  next : Bool
  skipView : Bool
  statusCode : Nat
  headers : List (String × String)
  log : List Nat
deriving DecidableEq

/-- A view or middleware body: mutates the request context and may return an
error (Go `func(*RequestCtx) error`). -/
abbrev ViewFn := RequestCtx → RequestCtx × Option Err

/-- The configurable error view (Go `func(*RequestCtx, error, int)`). -/
abbrev ErrorView := RequestCtx → Err → Nat → RequestCtx

/-- `fasthttp.StatusOK`. -/
def StatusOK : Nat := 200

/-- `fasthttp.StatusInternalServerError`. -/
def StatusInternalServerError : Nat := 500

/-- `fasthttp.MethodOptions`. -/
def MethodOptions : String := "OPTIONS"

/-- `fasthttp.HeaderAllow`. -/
def HeaderAllow : String := "Allow"

/-- The ASCII fragment of Go `strings.ToUpper`: character-wise uppercasing.
Go applies the full Unicode case mapping; the method-case theorem therefore
abstracts the mapping as a parameter (`Router.PathWith`), and this fragment is
used only at all-ASCII method strings, where the two agree. -/
def stringsToUpper (s : String) : String := String.mk (s.data.map Char.toUpper)

/-- Modelled from the spec: `RequestCtx.Next` (declared outside the routing
file) signals that the dispatch loop may continue with the next chain element;
it sets the `next` flag and returns no error. -/
def RequestCtx.Next (ctx : RequestCtx) : RequestCtx × Option Err :=
  ({ ctx with next := true }, none)

/-- `ctx.Response.Header.Set`: sets a response header, replacing any previous
value for the same name. -/
def RequestCtx.setHeader (ctx : RequestCtx) (k v : String) : RequestCtx :=
  { ctx with headers := (k, v) :: ctx.headers.filter (fun h => h.1 ≠ k) }

/-- Reads a response header previously set with `RequestCtx.setHeader`. -/
def RequestCtx.getHeader (ctx : RequestCtx) (k : String) : Option String :=
  (ctx.headers.find? (fun h => h.1 == k)).map (fun h => h.2)

/-- A registered middleware.  Go middlewares are bare function values compared
by function pointer; `id` models that pointer identity and `run` the function
body. -/
structure Middleware where
  id : Nat
  run : ViewFn

instance : BEq Middleware := ⟨fun a b => a.id == b.id⟩

/-- The `Middlewares` configuration (before / after / skip lists), generic in
the middleware representation so that identity-only reasoning can use plain
values with decidable equality. -/
structure Middlewares (α : Type) where
  before : List α
  after : List α
  skip : List α

/-- Modelled from the spec: `appendMiddlewares` (declared outside the routing
file) appends to `dst` every element of `src` that is not in the `skip` list —
this is the "filtering out any middleware explicitly marked skip" step. -/
def appendMiddlewares [BEq α] (dst src skip : List α) : List α :=
  dst ++ src.filter (fun f => !(skip.contains f))

/-- The `Router` tree: the root server router, or a group created by
`NewGroupPath` holding a parent pointer, a path prefix and its own middleware
lists.  The root carries the debug middleware (`some dm` models
`cfg.debug == true` with debug middleware `dm`). -/
inductive Router (α : Type) where
  | root (mws : Middlewares α) (debugMw : Option α)
  | group (parent : Router α) (pfx : String) (mws : Middlewares α)

/-- The router's own `middlewares` field. -/
def Router.mws : Router α → Middlewares α
  | .root m _ => m
  | .group _ _ m => m

/-- Replaces the router's own `middlewares` field (`r.middlewares = m`). -/
def Router.setMws : Router α → Middlewares α → Router α
  | .root _ d, m => .root m d
  | .group p s _, m => .group p s m

/-- One merge step of `Router.buildMiddlewares` (lines 104-111): the current
router's before-middlewares precede the accumulated ones, the accumulated
after-middlewares precede the current router's, and skip lists accumulate. -/
def mergeStep (rm m : Middlewares α) : Middlewares α :=
  { before := rm.before ++ m.before
    after := m.after ++ rm.after
    skip := m.skip ++ rm.skip }

/-- `Router.buildMiddlewares`: walks the group chain up to the root merging
middleware lists, prepends the debug middleware at the root when debugging,
and finally filters both chains by the accumulated skip list. -/
def Router.buildMiddlewares [BEq α] : Router α → Middlewares α → Middlewares α
  | .group parent _ gmws, m => parent.buildMiddlewares (mergeStep gmws m)
  | .root rmws debugMw, m =>
    let m2 := mergeStep rmws m
    let m2b := match debugMw with
      | some dm => dm :: m2.before
      | none => m2.before
    { before := appendMiddlewares [] m2b m2.skip
      after := appendMiddlewares [] m2.after m2.skip
      skip := m2.skip }

/-- `Router.getGroupFullPath`: prepends every ancestor group's prefix,
innermost last. -/
def Router.getGroupFullPath : Router α → String → String
  | .root _ _, path => path
  | .group parent pfx _, path => parent.getGroupFullPath (pfx ++ path)

/-- `Router.NewGroupPath`: a child group router with the given prefix and no
middlewares of its own yet. -/
def Router.NewGroupPath (r : Router α) (path : String) : Router α :=
  .group r path { before := [], after := [], skip := [] }

/-- `Router.Middlewares`: overrides the router's middleware configuration. -/
def Router.Middlewares (r : Router α) (m : Middlewares α) : Router α :=
  r.setMws m

/-- `Router.UseBefore`: appends to the router's before-middleware list. -/
def Router.UseBefore (r : Router α) (fns : List α) : Router α :=
  r.setMws { r.mws with before := r.mws.before ++ fns }

/-- `Router.UseAfter`: appends to the router's after-middleware list. -/
def Router.UseAfter (r : Router α) (fns : List α) : Router α :=
  r.setMws { r.mws with after := r.mws.after ++ fns }

/-- `Router.SkipMiddlewares`: appends to the router's skip list. -/
def Router.SkipMiddlewares (r : Router α) (fns : List α) : Router α :=
  r.setMws { r.mws with skip := r.mws.skip ++ fns }

/-- Builds a nested chain of route groups from a base router: for each entry,
`NewGroupPath` followed by `Router.Middlewares`, outermost group first. -/
def Router.mkGroups : Router α → List (String × Atreugo.Middlewares α) → Router α
  | r, [] => r
  | r, g :: gs => ((r.NewGroupPath g.1).Middlewares g.2).mkGroups gs

/-- The `Path` record produced by route registration. -/
structure Path where
  method : String
  url : String
  view : ViewFn
  registered : Bool

/-- `Router.Path` with the external `strings.ToUpper` abstracted as the
uppercase mapping `up` (lines 420-423): panics (modelled as `Except.error`)
exactly when the method is not its own image under `up`; otherwise registers
the view at the group's full path and marks the returned path record
registered. -/
def Router.PathWith (r : Router α) (up : String → String)
    (method url : String) (viewFn : ViewFn) : Except String Atreugo.Path :=
  if method = up method then
    .ok { method := method, url := r.getGroupFullPath url, view := viewFn,
          registered := true }
  else
    .error ("The http method " ++ method ++ " must be in uppercase")

/-- `Router.Path`: `Router.PathWith` at the ASCII fragment of the library's
uppercase mapping; this development only applies it to all-ASCII methods. -/
def Router.Path (r : Router α) (method url : String) (viewFn : ViewFn) :
    Except String Atreugo.Path :=
  if method = stringsToUpper method then
    .ok { method := method, url := r.getGroupFullPath url, view := viewFn,
          registered := true }
  else
    .error ("The http method " ++ method ++ " must be in uppercase")

theorem Path_eq_PathWith (r : Router α) (method url : String) (fn : ViewFn) :
    r.Path method url fn = r.PathWith stringsToUpper method url fn := rfl

/-- `Router.GET`: shortcut for `Path "GET"`. -/
def Router.GET (r : Router α) (url : String) (viewFn : ViewFn) :
    Except String Atreugo.Path :=
  r.Path "GET" url viewFn

/-- `Router.POST`: shortcut for `Path "POST"`. -/
def Router.POST (r : Router α) (url : String) (viewFn : ViewFn) :
    Except String Atreugo.Path :=
  r.Path "POST" url viewFn

/-- `Router.DELETE`: shortcut for `Path "DELETE"`. -/
def Router.DELETE (r : Router α) (url : String) (viewFn : ViewFn) :
    Except String Atreugo.Path :=
  r.Path "DELETE" url viewFn

/-- A middleware-registration call on a router, for reasoning about arbitrary
sequences of registrations. -/
inductive RegOp (α : Type) where
  | useBefore (fns : List α)
  | useAfter (fns : List α)
  | skipMws (fns : List α)

/-- Applies one registration call. -/
def Router.applyOp (r : Router α) : RegOp α → Router α
  | .useBefore fns => r.UseBefore fns
  | .useAfter fns => r.UseAfter fns
  | .skipMws fns => r.SkipMiddlewares fns

/-- Applies a sequence of registration calls, left to right. -/
def Router.applyOps (r : Router α) (ops : List (RegOp α)) : Router α :=
  ops.foldl Router.applyOp r

/-- The arguments passed to `UseBefore` across a sequence of calls, in call
order. -/
def beforeArgs : List (RegOp α) → List α
  | [] => []
  | .useBefore fns :: ops => fns ++ beforeArgs ops
  | _ :: ops => beforeArgs ops

/-- The arguments passed to `UseAfter` across a sequence of calls, in call
order. -/
def afterArgs : List (RegOp α) → List α
  | [] => []
  | .useAfter fns :: ops => fns ++ afterArgs ops
  | _ :: ops => afterArgs ops

/-- The arguments passed to `SkipMiddlewares` across a sequence of calls, in
call order. -/
def skipArgs : List (RegOp α) → List α
  | [] => []
  | .skipMws fns :: ops => fns ++ skipArgs ops
  | _ :: ops => skipArgs ops

theorem mws_setMws (r : Router α) (m : Middlewares α) : (r.setMws m).mws = m := by
  cases r <;> rfl

theorem getGroupFullPath_mkGroups (gs : List (String × Middlewares α))
    (r : Router α) (u : String) :
    (r.mkGroups gs).getGroupFullPath u
      = r.getGroupFullPath ((gs.map (fun g => g.1)).foldr (fun a b => a ++ b) u) := by
  induction gs generalizing r u with
  | nil => rfl
  | cons g gs ih =>
    simp only [Router.mkGroups, List.map_cons, List.foldr_cons]
    rw [ih]
    rfl


/-- The source's `emptyView`: a view that does nothing and returns no error. -/
def emptyView : ViewFn := fun ctx => (ctx, none)

/-- Whether route registration succeeded (did not panic). -/
def pathOk (x : Except String Atreugo.Path) : Bool :=
  match x with
  | .ok _ => true
  | .error _ => false

theorem applyOps_mws (ops : List (RegOp α)) (r : Router α) :
    (r.applyOps ops).mws =
      { before := r.mws.before ++ beforeArgs ops
        after := r.mws.after ++ afterArgs ops
        skip := r.mws.skip ++ skipArgs ops } := by
  induction ops generalizing r with
  | nil => simp [Router.applyOps, beforeArgs, afterArgs, skipArgs]
  | cons op t ih =>
    have h : r.applyOps (op :: t) = (r.applyOp op).applyOps t := rfl
    rw [h, ih]
    cases op <;>
      simp [Router.applyOp, Router.UseBefore, Router.UseAfter,
        Router.SkipMiddlewares, mws_setMws, beforeArgs, afterArgs, skipArgs,
        List.append_assoc]

/-- C6: `UseBefore` / `UseAfter` / `SkipMiddlewares` each append their
arguments, in order, to the end of the router's before / after / skip list,
leaving the other two lists untouched, so across any sequence of such calls
the final lists are the initial lists followed by the arguments in call
order. -/
theorem use_register_append_order (r : Router α) (ops : List (RegOp α))
    (fns : List α) :
    ((r.applyOps ops).mws.before = r.mws.before ++ beforeArgs ops
      ∧ (r.applyOps ops).mws.after = r.mws.after ++ afterArgs ops
      ∧ (r.applyOps ops).mws.skip = r.mws.skip ++ skipArgs ops)
    ∧ ((r.UseBefore fns).mws.before = r.mws.before ++ fns
      ∧ (r.UseBefore fns).mws.after = r.mws.after
      ∧ (r.UseBefore fns).mws.skip = r.mws.skip)
    ∧ ((r.UseAfter fns).mws.after = r.mws.after ++ fns
      ∧ (r.UseAfter fns).mws.before = r.mws.before
      ∧ (r.UseAfter fns).mws.skip = r.mws.skip)
    ∧ ((r.SkipMiddlewares fns).mws.skip = r.mws.skip ++ fns
      ∧ (r.SkipMiddlewares fns).mws.before = r.mws.before
      ∧ (r.SkipMiddlewares fns).mws.after = r.mws.after) := by
  refine ⟨?_, ?_, ?_, ?_⟩
  · rw [applyOps_mws]
    exact ⟨rfl, rfl, rfl⟩
  · simp [Router.UseBefore, mws_setMws]
  · simp [Router.UseAfter, mws_setMws]
  · simp [Router.SkipMiddlewares, mws_setMws]

/-- C5: registering a route with url `u` under nested groups with prefixes
`p1` (outermost) … `pn` (innermost) uses the concatenated path
`p1 ++ … ++ pn ++ u`, both as computed by `getGroupFullPath` and as stored in
the `Path` record returned by `Router.Path`. -/
theorem group_path_concat (rootMws : Middlewares α) (d : Option α)
    (gs : List (String × Middlewares α)) (u : String) (fn : ViewFn) :
    ((Router.root rootMws d).mkGroups gs).getGroupFullPath u
      = (gs.map (fun g => g.1)).foldr (fun a b => a ++ b) u
    ∧ ∀ p, ((Router.root rootMws d).mkGroups gs).Path "GET" u fn = Except.ok p →
        p.url = (gs.map (fun g => g.1)).foldr (fun a b => a ++ b) u := by
  have h : ((Router.root rootMws d).mkGroups gs).getGroupFullPath u
      = (gs.map (fun g => g.1)).foldr (fun a b => a ++ b) u := by
    rw [getGroupFullPath_mkGroups]
    rfl
  refine ⟨h, fun p hp => ?_⟩
  rw [Router.Path, show stringsToUpper "GET" = "GET" from by decide, if_pos rfl] at hp
  cases hp
  exact h

/-- C9: `Router.Path` panics exactly when the method string differs from its
image under the library's uppercase mapping — proved for every mapping `up`,
hence for Go's Unicode-aware `strings.ToUpper` — and for a method that is its
own uppercase form the route is registered with the given method and the
group's full path; the `GET`/`POST`/`DELETE` shortcuts (all-ASCII literals,
fixed points of the mapping) never panic. -/
theorem path_method_uppercase_check (r : Router α) (up : String → String)
    (method url : String) (fn : ViewFn) :
    (pathOk (r.PathWith up method url fn) = true ↔ method = up method)
    ∧ (∀ p, r.PathWith up method url fn = Except.ok p →
        p.registered = true ∧ p.method = method
          ∧ p.url = r.getGroupFullPath url)
    ∧ pathOk (r.GET url fn) = true
    ∧ pathOk (r.POST url fn) = true
    ∧ pathOk (r.DELETE url fn) = true := by
  refine ⟨⟨fun hok => ?_, fun h => ?_⟩, fun p hp => ?_, ?_, ?_, ?_⟩
  · by_cases h : method = up method
    · exact h
    · rw [Router.PathWith, if_neg h] at hok
      exact absurd hok (by simp [pathOk])
  · rw [Router.PathWith, if_pos h]
    rfl
  · rw [Router.PathWith] at hp
    by_cases h : method = up method
    · rw [if_pos h] at hp
      cases hp
      exact ⟨rfl, rfl, rfl⟩
    · rw [if_neg h] at hp
      cases hp
  · rw [Router.GET, Router.Path,
      show stringsToUpper "GET" = "GET" from by decide, if_pos rfl]
    rfl
  · rw [Router.POST, Router.Path,
      show stringsToUpper "POST" = "POST" from by decide, if_pos rfl]
    rfl
  · rw [Router.DELETE, Router.Path,
      show stringsToUpper "DELETE" = "DELETE" from by decide, if_pos rfl]
    rfl


/-- An empty middleware configuration over plain numeric middleware ids. -/
def mwsNone : Middlewares Nat := { before := [], after := [], skip := [] }

/-- C5 witness: two nested groups with prefixes `/api` and `/v1` place a route
registered at `/users` at the full path `/api/v1/users`. -/
theorem group_path_concat_witness :
    ((Router.root mwsNone none).mkGroups
        [("/api", mwsNone), ("/v1", mwsNone)]).getGroupFullPath "/users"
      = "/api" ++ ("/v1" ++ "/users")
    ∧ ∀ p, ((Router.root mwsNone none).mkGroups
          [("/api", mwsNone), ("/v1", mwsNone)]).Path "GET" "/users" emptyView
        = Except.ok p →
        p.url = "/api" ++ ("/v1" ++ "/users") :=
  group_path_concat mwsNone none [("/api", mwsNone), ("/v1", mwsNone)]
    "/users" emptyView

/-- A router with one middleware in each list, over numeric middleware ids. -/
def sampleRouter : Router Nat :=
  .root { before := [1], after := [2], skip := [3] } none

/-- A sample sequence of middleware-registration calls. -/
def sampleOps : List (RegOp Nat) :=
  [.useBefore [4, 5], .useAfter [6], .skipMws [7], .useBefore [8]]

/-- C6 witness: after the sample call sequence the lists are the initial ones
followed by the arguments in call order. -/
theorem use_register_append_order_witness :
    ((sampleRouter.applyOps sampleOps).mws.before = [1, 4, 5, 8]
      ∧ (sampleRouter.applyOps sampleOps).mws.after = [2, 6]
      ∧ (sampleRouter.applyOps sampleOps).mws.skip = [3, 7])
    ∧ ((sampleRouter.UseBefore [9]).mws.before = [1, 9]
      ∧ (sampleRouter.UseBefore [9]).mws.after = [2]
      ∧ (sampleRouter.UseBefore [9]).mws.skip = [3])
    ∧ ((sampleRouter.UseAfter [9]).mws.after = [2, 9]
      ∧ (sampleRouter.UseAfter [9]).mws.before = [1]
      ∧ (sampleRouter.UseAfter [9]).mws.skip = [3])
    ∧ ((sampleRouter.SkipMiddlewares [9]).mws.skip = [3, 9]
      ∧ (sampleRouter.SkipMiddlewares [9]).mws.before = [1]
      ∧ (sampleRouter.SkipMiddlewares [9]).mws.after = [2]) :=
  use_register_append_order sampleRouter sampleOps [9]

/-- C9 witness: on a plain root router, `Path` at the concrete ASCII mapping
with method `"get"` panics (`"get"` is not its uppercase form) while the
`GET`/`POST`/`DELETE` shortcuts register successfully. -/
theorem path_method_uppercase_check_witness :
    (pathOk ((Router.root mwsNone none).PathWith stringsToUpper "get" "/x"
          emptyView) = true
        ↔ "get" = stringsToUpper "get")
    ∧ (∀ p, (Router.root mwsNone none).PathWith stringsToUpper "get" "/x"
          emptyView = Except.ok p →
        p.registered = true ∧ p.method = "get"
          ∧ p.url = (Router.root mwsNone none).getGroupFullPath "/x")
    ∧ pathOk ((Router.root mwsNone none).GET "/x" emptyView) = true
    ∧ pathOk ((Router.root mwsNone none).POST "/x" emptyView) = true
    ∧ pathOk ((Router.root mwsNone none).DELETE "/x" emptyView) = true :=
  path_method_uppercase_check (Router.root mwsNone none) stringsToUpper "get"
    "/x" emptyView


theorem buildMiddlewares_mkGroups [BEq α] (gs : List (String × Middlewares α))
    (r : Router α) (m : Middlewares α) :
    (r.mkGroups gs).buildMiddlewares m
      = r.buildMiddlewares (gs.foldr (fun g acc => mergeStep g.2 acc) m) := by
  induction gs generalizing r m with
  | nil => rfl
  | cons g t ih =>
    show (((r.NewGroupPath g.1).Middlewares g.2).mkGroups t).buildMiddlewares m = _
    rw [ih]
    rfl

theorem foldr_mergeStep (gs : List (String × Middlewares α)) (m : Middlewares α) :
    gs.foldr (fun g acc => mergeStep g.2 acc) m
      = { before := (gs.map (fun g => g.2.before)).flatten ++ m.before
          after := m.after ++ ((gs.map (fun g => g.2.after)).reverse).flatten
          skip := m.skip ++ ((gs.map (fun g => g.2.skip)).reverse).flatten } := by
  induction gs with
  | nil => simp
  | cons g t ih =>
    rw [List.foldr_cons, ih]
    simp [mergeStep, List.append_assoc]

/-- The full accumulated skip list seen at the root when building the chain
for route middlewares `m` registered below groups `gs` (innermost last) under
the server root: route skips first, then group skips innermost to outermost,
then the root's. -/
def fullSkipList (rootMws : Middlewares α) (gs : List (String × Middlewares α))
    (m : Middlewares α) : List α :=
  (m.skip ++ ((gs.map (fun g => g.2.skip)).reverse).flatten) ++ rootMws.skip

/-- The unfiltered concatenated before chain: root, then groups outermost to
innermost, then the route's own before-middlewares. -/
def fullBeforeConcat (rootMws : Middlewares α)
    (gs : List (String × Middlewares α)) (m : Middlewares α) : List α :=
  (rootMws.before ++ (gs.map (fun g => g.2.before)).flatten) ++ m.before

/-- The unfiltered concatenated after chain: the route's own
after-middlewares, then groups innermost to outermost, then the root's. -/
def fullAfterConcat (rootMws : Middlewares α)
    (gs : List (String × Middlewares α)) (m : Middlewares α) : List α :=
  (m.after ++ ((gs.map (fun g => g.2.after)).reverse).flatten) ++ rootMws.after

theorem buildMiddlewares_closed [BEq α] (rootMws : Middlewares α)
    (gs : List (String × Middlewares α)) (m : Middlewares α) :
    ((Router.root rootMws none).mkGroups gs).buildMiddlewares m
      = { before := (fullBeforeConcat rootMws gs m).filter
            (fun x => !((fullSkipList rootMws gs m).contains x))
          after := (fullAfterConcat rootMws gs m).filter
            (fun x => !((fullSkipList rootMws gs m).contains x))
          skip := fullSkipList rootMws gs m } := by
  rw [buildMiddlewares_mkGroups, foldr_mergeStep]
  simp [Router.buildMiddlewares, mergeStep, appendMiddlewares,
    fullBeforeConcat, fullAfterConcat, fullSkipList, List.append_assoc]

/-- C4: in the built chain, every middleware appearing in the route's skip
list or in any ancestor group's (or the root's) skip list is absent from both
the final before chain and the final after chain, and both final chains are
exactly the fully concatenated chains filtered by the accumulated skip list —
the filtering happens after all concatenation steps. -/
theorem skip_filter_applied_last [DecidableEq α] (rootMws : Middlewares α)
    (gs : List (String × Middlewares α)) (m : Middlewares α) :
    (((Router.root rootMws none).mkGroups gs).buildMiddlewares m).before
        = (fullBeforeConcat rootMws gs m).filter
            (fun x => !((fullSkipList rootMws gs m).contains x))
    ∧ (((Router.root rootMws none).mkGroups gs).buildMiddlewares m).after
        = (fullAfterConcat rootMws gs m).filter
            (fun x => !((fullSkipList rootMws gs m).contains x))
    ∧ ∀ x ∈ fullSkipList rootMws gs m,
        x ∉ (((Router.root rootMws none).mkGroups gs).buildMiddlewares m).before
        ∧ x ∉ (((Router.root rootMws none).mkGroups gs).buildMiddlewares m).after := by
  rw [buildMiddlewares_closed]
  refine ⟨rfl, rfl, fun x hx => ⟨?_, ?_⟩⟩
  · intro hmem
    rcases List.mem_filter.mp hmem with ⟨-, hkeep⟩
    simp only [Bool.not_eq_true'] at hkeep
    exact absurd hkeep (by simpa using hx)
  · intro hmem
    rcases List.mem_filter.mp hmem with ⟨-, hkeep⟩
    simp only [Bool.not_eq_true'] at hkeep
    exact absurd hkeep (by simpa using hx)


/-- Concrete root middleware lists for the C4 witness. -/
def w4root : Middlewares Nat := { before := [1, 2], after := [3], skip := [2] }

/-- Concrete group list for the C4 witness. -/
def w4gs : List (String × Middlewares Nat) :=
  [("/g", { before := [4], after := [5], skip := [4] })]

/-- Concrete route middleware lists for the C4 witness. -/
def w4m : Middlewares Nat := { before := [6, 2], after := [7, 4], skip := [7] }

/-- The built middleware configuration for the C4 witness. -/
def w4result : Middlewares Nat :=
  ((Router.root w4root none).mkGroups w4gs).buildMiddlewares w4m

/-- C4 witness: with root lists before `[1,2]` / after `[3]` / skip `[2]`, one
group with before `[4]` / after `[5]` / skip `[4]`, and route lists before
`[6,2]` / after `[7,4]` / skip `[7]`, the accumulated skip list is `[7,4,2]`
and the filtered chains are `[1,6]` and `[5,3]`. -/
theorem skip_filter_applied_last_witness :
    w4result.before = [1, 6] ∧ w4result.after = [5, 3]
    ∧ ∀ x ∈ ([7, 4, 2] : List Nat),
        x ∉ w4result.before ∧ x ∉ w4result.after :=
  skip_filter_applied_last w4root w4gs w4m

/-- The outcome of dispatching one request through a handler chain: the list
of chain indices that executed, the error-view invocations (error and status
code passed), and the final request context. -/
structure RunResult where
  trace : List Nat
  errorCalls : List (Err × Nat)
  finalCtx : RequestCtx
deriving DecidableEq

/-- The dispatch loop of `Router.handler` (lines 158-174), starting at chain
index `i`: run the element; on a non-nil error infer the status code (500 when
the response status is still 200), invoke the error view once and stop; on nil
continue only when the `next` flag was set, resetting it first. -/
def runChainGo (ev : ErrorView) : List ViewFn → Nat → RequestCtx → RunResult
  | [], _, ctx => { trace := [], errorCalls := [], finalCtx := ctx }
  | el :: rest, i, ctx =>
    let r := el ctx
    match r.2 with
    | some e =>
      let sc := if r.1.statusCode = StatusOK then StatusInternalServerError
        else r.1.statusCode
      { trace := [i], errorCalls := [(e, sc)], finalCtx := ev r.1 e sc }
    | none =>
      if r.1.next then
        let res := runChainGo ev rest (i + 1) { r.1 with next := false }
        { trace := i :: res.trace, errorCalls := res.errorCalls
          finalCtx := res.finalCtx }
      else { trace := [i], errorCalls := [], finalCtx := r.1 }

/-- Dispatch from the start of the chain. -/
def runChain (ev : ErrorView) (chain : List ViewFn) (ctx : RequestCtx) :
    RunResult :=
  runChainGo ev chain 0 ctx

/-- The view wrapper appended after the before-middlewares (lines 143-151):
run the view unless `skipView` is set, propagate its error, else `Next`. -/
def wrapView (fn : ViewFn) : ViewFn := fun ctx =>
  if ctx.skipView then ctx.Next
  else
    let r := fn ctx
    match r.2 with
    | some e => (r.1, some e)
    | none => r.1.Next

/-- The handler chain built by `Router.handler` (lines 140-153): built
before-middlewares, then the wrapped view, then built after-middlewares. -/
def Router.handlerChain (r : Router Middleware) (fn : ViewFn)
    (middle : Atreugo.Middlewares Middleware) : List ViewFn :=
  let m := r.buildMiddlewares middle
  (m.before.map Middleware.run ++ [wrapView fn]) ++ m.after.map Middleware.run

/-- Modelled from the spec: the request-context pool (`AcquireRequestCtx` /
`ReleaseRequestCtx`, declared outside the routing file), reduced to its
observable acquire/release counters. -/
structure PoolState where
  acquired : Nat
  released : Nat

/-- `AcquireRequestCtx`: takes a context wrapper from the pool. -/
def AcquireRequestCtx (p : PoolState) : PoolState :=
  { p with acquired := p.acquired + 1 }

/-- `ReleaseRequestCtx`: returns the context wrapper to the pool. -/
def ReleaseRequestCtx (p : PoolState) : PoolState :=
  { p with released := p.released + 1 }

/-- The full request handler returned by `Router.handler` (lines 155-177):
acquire a request context from the pool, run the chain, release it. -/
def Router.dispatch (r : Router Middleware) (ev : ErrorView) (fn : ViewFn)
    (middle : Atreugo.Middlewares Middleware) (ctx0 : RequestCtx)
    (pool : PoolState) :
    PoolState × RunResult :=
  let p1 := AcquireRequestCtx pool
  let res := runChain ev (r.handlerChain fn middle) ctx0
  (ReleaseRequestCtx p1, res)

/-- Runs a chain prefix checking that every element returned no error and set
the `next` flag; returns the context handed to the element after the prefix
(with the `next` flag already reset), or `none` when the prefix halts. -/
def completesChain : List ViewFn → RequestCtx → Option RequestCtx
  | [], ctx => some ctx
  | el :: rest, ctx =>
    let r := el ctx
    match r.2 with
    | some _ => none
    | none =>
      if r.1.next then completesChain rest { r.1 with next := false }
      else none


theorem runChainGo_append_of_completes (ev : ErrorView) (pre : List ViewFn)
    (rest : List ViewFn) (i : Nat) (ctx ctx' : RequestCtx)
    (h : completesChain pre ctx = some ctx') :
    runChainGo ev (pre ++ rest) i ctx
      = { trace := List.range' i pre.length
            ++ (runChainGo ev rest (i + pre.length) ctx').trace
          errorCalls := (runChainGo ev rest (i + pre.length) ctx').errorCalls
          finalCtx := (runChainGo ev rest (i + pre.length) ctx').finalCtx } := by
  induction pre generalizing i ctx with
  | nil =>
    simp only [completesChain, Option.some.injEq] at h
    subst h
    simp [runChainGo]
  | cons el t ih =>
    simp only [completesChain] at h
    rw [List.cons_append]
    simp only [runChainGo]
    split at h
    · exact absurd h (by simp)
    · rename_i heq
      split at h
      · rename_i hnext
        simp only [hnext, if_true]
        rw [ih (i + 1) _ h, List.length_cons,
          (by omega : i + (t.length + 1) = i + 1 + t.length),
          List.range'_succ, List.cons_append]
      · exact absurd h (by simp)

theorem runChainGo_trace_range (ev : ErrorView) (chain : List ViewFn)
    (i : Nat) (ctx : RequestCtx) :
    (runChainGo ev chain i ctx).trace
      = List.range' i (runChainGo ev chain i ctx).trace.length := by
  induction chain generalizing i ctx with
  | nil => simp [runChainGo]
  | cons el t ih =>
    simp only [runChainGo]
    split
    · simp [List.range'_succ]
    · split
      · simp only [List.length_cons, List.range'_succ, List.cons.injEq,
          true_and]
        exact ih (i + 1) _
      · simp [List.range'_succ]

theorem runChainGo_trace_length_shift (ev : ErrorView) (chain : List ViewFn)
    (i j : Nat) (ctx : RequestCtx) :
    (runChainGo ev chain i ctx).trace.length
      = (runChainGo ev chain j ctx).trace.length := by
  induction chain generalizing i j ctx with
  | nil => rfl
  | cons el t ih =>
    simp only [runChainGo]
    split
    · rfl
    · split
      · simp only [List.length_cons]
        rw [ih (i + 1) (j + 1)]
      · rfl

theorem completesChain_take (ev : ErrorView) (chain : List ViewFn)
    (ctx : RequestCtx) (k : Nat)
    (h : k < (runChainGo ev chain 0 ctx).trace.length) :
    (completesChain (chain.take k) ctx).isSome := by
  induction chain generalizing ctx k with
  | nil => simp [runChainGo] at h
  | cons el t ih =>
    cases k with
    | zero => simp [completesChain]
    | succ k =>
      simp only [runChainGo] at h
      split at h
      · simp at h
      · rename_i heq
        split at h
        · rename_i hnext
          simp only [List.length_cons, Nat.succ_lt_succ_iff] at h
          rw [runChainGo_trace_length_shift ev t 1 0] at h
          have hs := ih _ k h
          simp only [List.take_succ_cons, completesChain, heq, hnext, if_true]
          exact hs
        · simp at h

/-- C2: when a chain element returns a non-nil error, no later element of the
chain executes (every executed index is at most the erroring element's), and
the error view is invoked exactly once, with that error. -/
theorem error_halts_chain (ev : ErrorView) (pre post : List ViewFn)
    (el : ViewFn) (ctx0 ctx1 ctx2 : RequestCtx) (e : Err)
    (hpre : completesChain pre ctx0 = some ctx1)
    (hel : el ctx1 = (ctx2, some e)) :
    (runChain ev (pre ++ el :: post) ctx0).errorCalls.map Prod.fst = [e]
    ∧ ∀ j ∈ (runChain ev (pre ++ el :: post) ctx0).trace, j ≤ pre.length := by
  rw [runChain, runChainGo_append_of_completes ev pre (el :: post) 0 ctx0 ctx1 hpre]
  simp only [runChainGo, hel]
  constructor
  · simp
  · intro j hj
    simp only [Nat.zero_add, List.mem_append, List.mem_range'_1,
      List.mem_singleton] at hj
    rcases hj with ⟨-, hj⟩ | hj
    · omega
    · omega

/-- C3: the status code handed to the error view is the response's current
status code, replaced by 500 (internal server error) exactly when the current
status is still 200 (OK). -/
theorem error_status_code_inferred (ev : ErrorView) (pre post : List ViewFn)
    (el : ViewFn) (ctx0 ctx1 ctx2 : RequestCtx) (e : Err)
    (hpre : completesChain pre ctx0 = some ctx1)
    (hel : el ctx1 = (ctx2, some e)) :
    (runChain ev (pre ++ el :: post) ctx0).errorCalls
      = [(e, if ctx2.statusCode = StatusOK then StatusInternalServerError
          else ctx2.statusCode)] := by
  rw [runChain, runChainGo_append_of_completes ev pre (el :: post) 0 ctx0 ctx1 hpre]
  simp only [runChainGo, hel]

/-- C8: a chain element at index `j + 1` executes only when the `j + 1`-long
prefix before it completed — every earlier element returned nil and set the
`next` flag via `ctx.Next` — and when an element returns nil with the `next`
flag unset (reset before it ran), the chain stops there: the remaining
elements never run and the error view is not invoked. -/
theorem next_flag_gates_chain (ev : ErrorView) (pre post : List ViewFn)
    (el : ViewFn) (ctx0 ctx1 ctx2 : RequestCtx)
    (hpre : completesChain pre ctx0 = some ctx1)
    (hel : el ctx1 = (ctx2, none)) (hnext : ctx2.next = false) :
    (runChain ev (pre ++ el :: post) ctx0
      = { trace := List.range' 0 pre.length ++ [pre.length]
          errorCalls := []
          finalCtx := ctx2 })
    ∧ ∀ chain ctx j, j + 1 ∈ (runChain ev chain ctx).trace →
        (completesChain (chain.take (j + 1)) ctx).isSome := by
  constructor
  · rw [runChain, runChainGo_append_of_completes ev pre (el :: post) 0 ctx0 ctx1 hpre]
    simp [runChainGo, hel, hnext]
  · intro chain ctx j hj
    rw [runChain, runChainGo_trace_range ev chain 0 ctx] at hj
    rw [List.mem_range'_1] at hj
    exact completesChain_take ev chain ctx (j + 1) (by omega)

/-- C7: every dispatched request acquires a request context from the pool
exactly once before the chain runs and releases it exactly once afterwards,
whatever the chain's outcome. -/
theorem ctx_pool_acquire_release_once (r : Router Middleware) (ev : ErrorView)
    (fn : ViewFn) (middle : Atreugo.Middlewares Middleware)
    (ctx0 : RequestCtx) (pool : PoolState) :
    (r.dispatch ev fn middle ctx0 pool).1.acquired = pool.acquired + 1
    ∧ (r.dispatch ev fn middle ctx0 pool).1.released = pool.released + 1
    ∧ (r.dispatch ev fn middle ctx0 pool).2
        = runChain ev (r.handlerChain fn middle) ctx0 :=
  ⟨rfl, rfl, rfl⟩


/-- A fresh request context: flags clear, status 200, no headers, no log. -/
def baseCtx : RequestCtx :=
  { next := false, skipView := false, statusCode := 200, headers := []
    log := [] }

/-- A middleware body that only calls `ctx.Next()`. -/
def nextMw : ViewFn := fun ctx => ctx.Next

/-- A middleware body that returns error `7`. -/
def errMw : ViewFn := fun ctx => (ctx, some 7)

/-- A middleware body that returns nil without calling `ctx.Next()`. -/
def stopMw : ViewFn := fun ctx => (ctx, none)

/-- An error view that leaves the context unchanged. -/
def evNoop : ErrorView := fun ctx _ _ => ctx

/-- C2 witness: in the chain `[nextMw, errMw, nextMw]` the error middleware's
error `7` reaches the error view exactly once and no index beyond the
erroring element's executes. -/
theorem error_halts_chain_witness :
    completesChain [nextMw] baseCtx = some baseCtx
    ∧ errMw baseCtx = (baseCtx, some 7)
    ∧ (runChain evNoop ([nextMw] ++ errMw :: [nextMw]) baseCtx).errorCalls.map
        Prod.fst = [7]
    ∧ ∀ j ∈ (runChain evNoop ([nextMw] ++ errMw :: [nextMw]) baseCtx).trace,
        j ≤ 1 :=
  ⟨rfl, rfl,
    (error_halts_chain evNoop [nextMw] [nextMw] errMw baseCtx baseCtx baseCtx 7
      rfl rfl).1,
    (error_halts_chain evNoop [nextMw] [nextMw] errMw baseCtx baseCtx baseCtx 7
      rfl rfl).2⟩

/-- C3 witness: with the response status still 200 at the error, the error
view receives status 500. -/
theorem error_status_code_inferred_witness :
    completesChain [nextMw] baseCtx = some baseCtx
    ∧ errMw baseCtx = (baseCtx, some 7)
    ∧ (runChain evNoop ([nextMw] ++ errMw :: []) baseCtx).errorCalls
        = [(7, 500)] :=
  ⟨rfl, rfl,
    error_status_code_inferred evNoop [nextMw] [] errMw baseCtx baseCtx baseCtx
      7 rfl rfl⟩

/-- C8 witness: a nil return without `Next` after one completed element stops
the chain at index 1 — the error middleware at index 2 never runs and no
error view is invoked. -/
theorem next_flag_gates_chain_witness :
    completesChain [nextMw] baseCtx = some baseCtx
    ∧ stopMw baseCtx = (baseCtx, none)
    ∧ baseCtx.next = false
    ∧ (runChain evNoop ([nextMw] ++ stopMw :: [errMw]) baseCtx
        = { trace := [0, 1], errorCalls := [], finalCtx := baseCtx }
      ∧ ∀ chain ctx j, j + 1 ∈ (runChain evNoop chain ctx).trace →
          (completesChain (chain.take (j + 1)) ctx).isSome) :=
  ⟨rfl, rfl, rfl,
    next_flag_gates_chain evNoop [nextMw] [errMw] stopMw baseCtx baseCtx baseCtx
      rfl rfl rfl⟩

/-- A middleware body that appends `n` to the response log and calls
`ctx.Next()`. -/
def logRun (n : Nat) : ViewFn := fun ctx =>
  ({ ctx with log := ctx.log ++ [n], next := true }, none)

/-- A view body that appends `n` to the response log (views do not call
`Next` themselves; the handler's wrapper does). -/
def viewLog (n : Nat) : ViewFn := fun ctx =>
  ({ ctx with log := ctx.log ++ [n] }, none)

/-- The context state after the dispatch loop has run the `logRun`
middlewares for `ids` (log extended; `next` reset unless nothing ran). -/
def afterLogs (ids : List Nat) (ctx : RequestCtx) : RequestCtx :=
  if ids.isEmpty then ctx else { ctx with log := ctx.log ++ ids, next := false }

theorem afterLogs_log (ids : List Nat) (ctx : RequestCtx) :
    (afterLogs ids ctx).log = ctx.log ++ ids := by
  cases ids <;> simp [afterLogs]

theorem afterLogs_skipView (ids : List Nat) (ctx : RequestCtx) :
    (afterLogs ids ctx).skipView = ctx.skipView := by
  cases ids <;> simp [afterLogs]

theorem afterLogs_step (a : Nat) (t : List Nat) (ctx : RequestCtx) :
    afterLogs t { ctx with log := ctx.log ++ [a], next := false }
      = afterLogs (a :: t) ctx := by
  cases t <;> simp [afterLogs]

theorem runChainGo_logRun (ev : ErrorView) (ids : List Nat)
    (rest : List ViewFn) (i : Nat) (ctx : RequestCtx) :
    runChainGo ev (ids.map logRun ++ rest) i ctx
      = { trace := List.range' i ids.length
            ++ (runChainGo ev rest (i + ids.length) (afterLogs ids ctx)).trace
          errorCalls :=
            (runChainGo ev rest (i + ids.length) (afterLogs ids ctx)).errorCalls
          finalCtx :=
            (runChainGo ev rest (i + ids.length) (afterLogs ids ctx)).finalCtx } := by
  induction ids generalizing i ctx with
  | nil => simp [afterLogs, runChainGo]
  | cons a t ih =>
    rw [List.map_cons, List.cons_append]
    show runChainGo ev (logRun a :: (t.map logRun ++ rest)) i ctx = _
    simp only [runChainGo, logRun]
    rw [ih (i + 1) _, afterLogs_step, List.length_cons,
      (by omega : i + (t.length + 1) = i + 1 + t.length),
      List.range'_succ, List.cons_append]
    simp


theorem runChainGo_logRun_nil (ev : ErrorView) (ids : List Nat) (i : Nat)
    (ctx : RequestCtx) :
    runChainGo ev (ids.map logRun) i ctx
      = { trace := List.range' i ids.length, errorCalls := []
          finalCtx := afterLogs ids ctx } := by
  have h := runChainGo_logRun ev ids [] i ctx
  rw [List.append_nil] at h
  rw [h]
  simp [runChainGo]

theorem runChainGo_logRun_comp (ev : ErrorView) (mws : List Middleware)
    (i : Nat) (ctx : RequestCtx) :
    runChainGo ev (mws.map (logRun ∘ Middleware.id)) i ctx
      = { trace := List.range' i mws.length, errorCalls := []
          finalCtx := afterLogs (mws.map Middleware.id) ctx } := by
  rw [← List.map_map]
  rw [runChainGo_logRun_nil]
  simp

theorem fullSkipList_eq_nil (rootMws : Middlewares α)
    (gs : List (String × Middlewares α)) (m : Middlewares α)
    (hrs : rootMws.skip = []) (hgs : ∀ g ∈ gs, g.2.skip = [])
    (hms : m.skip = []) : fullSkipList rootMws gs m = [] := by
  rw [fullSkipList, hrs, hms]
  simp only [List.nil_append, List.append_nil]
  rw [List.flatten_eq_nil_iff]
  intro l hl
  rw [List.mem_reverse, List.mem_map] at hl
  rcases hl with ⟨g, hg, rfl⟩
  exact hgs g hg

/-- C1: for a route with view `fn` and middlewares `m` registered under
nested groups `gs` (outermost first) below the server root, the dispatched
chain runs, in order: the root's and each ancestor group's before-middlewares
outermost to innermost, the route's before-middlewares, the view, the route's
after-middlewares, then each group's and the root's after-middlewares
innermost to outermost — observed through the response log when every
middleware logs its id and calls `Next` and the view logs `v`; no error view
runs. -/
theorem chain_execution_order (ev : ErrorView) (rootMws : Middlewares Middleware)
    (gs : List (String × Middlewares Middleware))
    (m : Middlewares Middleware) (fn : ViewFn) (v : Nat) (ctx0 : RequestCtx)
    (hrs : rootMws.skip = []) (hgs : ∀ g ∈ gs, g.2.skip = [])
    (hms : m.skip = [])
    (hrun : ∀ mw ∈ fullBeforeConcat rootMws gs m ++ fullAfterConcat rootMws gs m,
        mw.run = logRun mw.id)
    (hfn : fn = viewLog v) (hsv : ctx0.skipView = false) :
    (runChain ev (((Router.root rootMws none).mkGroups gs).handlerChain fn m)
        ctx0).finalCtx.log
      = ctx0.log
        ++ ((fullBeforeConcat rootMws gs m).map Middleware.id
          ++ v :: (fullAfterConcat rootMws gs m).map Middleware.id)
    ∧ (runChain ev (((Router.root rootMws none).mkGroups gs).handlerChain fn m)
        ctx0).errorCalls = [] := by
  have hskips := fullSkipList_eq_nil rootMws gs m hrs hgs hms
  have hb : ((Router.root rootMws none).mkGroups gs).buildMiddlewares m
      = { before := fullBeforeConcat rootMws gs m
          after := fullAfterConcat rootMws gs m
          skip := [] } := by
    rw [buildMiddlewares_closed, hskips]
    simp [List.contains]
  have hbefore : (fullBeforeConcat rootMws gs m).map Middleware.run
      = ((fullBeforeConcat rootMws gs m).map Middleware.id).map logRun := by
    rw [List.map_map]
    exact List.map_congr_left fun mw hmw =>
      hrun mw (List.mem_append_left _ hmw)
  have hafter : (fullAfterConcat rootMws gs m).map Middleware.run
      = ((fullAfterConcat rootMws gs m).map Middleware.id).map logRun := by
    rw [List.map_map]
    exact List.map_congr_left fun mw hmw =>
      hrun mw (List.mem_append_right _ hmw)
  have hchain : ((Router.root rootMws none).mkGroups gs).handlerChain fn m
      = ((fullBeforeConcat rootMws gs m).map Middleware.id).map logRun
        ++ (wrapView fn
          :: ((fullAfterConcat rootMws gs m).map Middleware.id).map logRun) := by
    rw [Router.handlerChain, hb]
    simp only [hbefore, hafter, List.append_assoc, List.singleton_append]
  have hw : wrapView fn (afterLogs ((fullBeforeConcat rootMws gs m).map
        Middleware.id) ctx0)
      = ({ afterLogs ((fullBeforeConcat rootMws gs m).map Middleware.id) ctx0
            with
            log := (afterLogs ((fullBeforeConcat rootMws gs m).map
              Middleware.id) ctx0).log ++ [v]
            next := true }, none) := by
    subst hfn
    simp [wrapView, viewLog, RequestCtx.Next, afterLogs_skipView, hsv]
  rw [runChain, hchain, runChainGo_logRun]
  simp only [runChainGo, hw]
  simp [runChainGo_logRun_nil, runChainGo_logRun_comp, afterLogs_log,
    List.append_assoc]


/-- A registered middleware that logs its own id and calls `Next`. -/
def logMw (n : Nat) : Middleware := { id := n, run := logRun n }

/-- Root middleware lists for the C1 witness. -/
def w1root : Middlewares Middleware :=
  { before := [logMw 1], after := [logMw 2], skip := [] }

/-- Group list for the C1 witness. -/
def w1gs : List (String × Middlewares Middleware) :=
  [("/g", { before := [logMw 3], after := [logMw 4], skip := [] })]

/-- Route middleware lists for the C1 witness. -/
def w1m : Middlewares Middleware :=
  { before := [logMw 5], after := [logMw 6], skip := [] }

/-- C1 witness: with root before/after middlewares `1`/`2`, one group with
`3`/`4`, route middlewares `5`/`6` and view `9`, the dispatched chain logs
`[1, 3, 5, 9, 6, 4, 2]` and invokes no error view. -/
theorem chain_execution_order_witness :
    w1root.skip = [] ∧ (∀ g ∈ w1gs, g.2.skip = []) ∧ w1m.skip = []
    ∧ (∀ mw ∈ fullBeforeConcat w1root w1gs w1m
          ++ fullAfterConcat w1root w1gs w1m, mw.run = logRun mw.id)
    ∧ baseCtx.skipView = false
    ∧ (runChain evNoop (((Router.root w1root none).mkGroups w1gs).handlerChain
          (viewLog 9) w1m) baseCtx).finalCtx.log = [1, 3, 5, 9, 6, 4, 2]
    ∧ (runChain evNoop (((Router.root w1root none).mkGroups w1gs).handlerChain
          (viewLog 9) w1m) baseCtx).errorCalls = [] := by
  have hgs : ∀ g ∈ w1gs, g.2.skip = [] := by
    intro g hg
    rw [w1gs, List.mem_singleton] at hg
    subst hg
    rfl
  have hrun : ∀ mw ∈ fullBeforeConcat w1root w1gs w1m
      ++ fullAfterConcat w1root w1gs w1m, mw.run = logRun mw.id := by
    intro mw hmw
    simp [fullBeforeConcat, fullAfterConcat, w1root, w1gs, w1m] at hmw
    rcases hmw with rfl | rfl | rfl | rfl | rfl | rfl <;> rfl
  have hmain := chain_execution_order evNoop w1root w1gs w1m (viewLog 9) 9
    baseCtx rfl hgs rfl hrun rfl rfl
  exact ⟨rfl, hgs, rfl, hrun, rfl, hmain.1.trans rfl, hmain.2⟩


/-- `gstrings.Include`: membership test on a string slice. -/
def gInclude (l : List String) (s : String) : Bool := l.contains s

/-- The Allow list collected by `buildOptionsView` (lines 57-69) before
sorting: every method other than OPTIONS whose url list contains `url`, in
registration-map order, or `[OPTIONS]` when there is none. -/
def optionsAllowBase (url : String)
    (paths : List (String × List String)) : List String :=
  if ((paths.filter (fun p => !(p.1 == MethodOptions)
      && gInclude p.2 url)).map (fun p => p.1)).isEmpty then
    [MethodOptions]
  else
    (paths.filter (fun p => !(p.1 == MethodOptions)
      && gInclude p.2 url)).map (fun p => p.1)

/-- `sort.Strings`: sorts a string slice lexicographically. -/
def sortStrings (l : List String) : List String :=
  List.insertionSort (fun a b : String => a ≤ b) l

/-- The Allow header value computed once by `buildOptionsView` (lines 71-72):
the sorted Allow list joined with `", "`. -/
def optionsAllowValue (url : String)
    (paths : List (String × List String)) : String :=
  String.intercalate ", " (sortStrings (optionsAllowBase url paths))

/-- `buildOptionsView` (lines 56-79): returns a view that sets the Allow
header to the precomputed value and then invokes the wrapped view. -/
def buildOptionsView (url : String) (fn : ViewFn)
    (paths : List (String × List String)) : ViewFn :=
  fun ctx => fn (ctx.setHeader HeaderAllow (optionsAllowValue url paths))

/-- C10: the view built by `buildOptionsView` sets the Allow response header
to the `", "`-joined lexicographically sorted list of methods other than
OPTIONS under which `url` is registered — exactly `OPTIONS` when there is no
such method — and then invokes the wrapped view; the value is a constant
computed from the registered paths alone. -/
theorem options_view_allow_header (url : String) (fn : ViewFn)
    (paths : List (String × List String)) (ctx : RequestCtx) :
    buildOptionsView url fn paths ctx
      = fn (ctx.setHeader HeaderAllow (optionsAllowValue url paths))
    ∧ (ctx.setHeader HeaderAllow
        (optionsAllowValue url paths)).getHeader HeaderAllow
      = some (optionsAllowValue url paths)
    ∧ optionsAllowValue url paths
      = String.intercalate ", " (sortStrings (optionsAllowBase url paths))
    ∧ List.Sorted (fun a b : String => a ≤ b)
        (sortStrings (optionsAllowBase url paths))
    ∧ ∀ meth, meth ∈ sortStrings (optionsAllowBase url paths) ↔
        ((meth ≠ MethodOptions ∧ ∃ us, (meth, us) ∈ paths ∧ url ∈ us)
          ∨ ((∀ q ∈ paths, q.1 = MethodOptions ∨ url ∉ q.2)
            ∧ meth = MethodOptions)) := by
  refine ⟨rfl, ?_, rfl, ?_, ?_⟩
  · simp [RequestCtx.setHeader, RequestCtx.getHeader]
  · exact List.sorted_insertionSort _ _
  · intro meth
    rw [sortStrings, List.Perm.mem_iff (List.perm_insertionSort _ _)]
    by_cases hemp : ((paths.filter (fun p => !(p.1 == MethodOptions)
        && gInclude p.2 url)).map (fun p => p.1)).isEmpty
    · rw [optionsAllowBase, if_pos hemp]
      rw [List.isEmpty_iff, List.map_eq_nil_iff, List.filter_eq_nil_iff] at hemp
      constructor
      · intro hm
        rw [List.mem_singleton] at hm
        refine Or.inr ⟨fun q hq => ?_, hm⟩
        have hcond := hemp q hq
        simp [gInclude] at hcond
        tauto
      · intro hm
        rcases hm with ⟨hne, us, hus, hurl⟩ | ⟨-, rfl⟩
        · exfalso
          have hcond := hemp (meth, us) hus
          simp [gInclude] at hcond
          exact hcond hne hurl
        · exact List.mem_singleton.mpr rfl
    · rw [optionsAllowBase, if_neg hemp]
      constructor
      · intro hm
        rcases List.mem_map.mp hm with ⟨q, hq, rfl⟩
        rcases List.mem_filter.mp hq with ⟨hqp, hP⟩
        simp [gInclude] at hP
        exact Or.inl ⟨hP.1, q.2, by simpa using hqp, hP.2⟩
      · intro hm
        rcases hm with ⟨hne, us, hus, hurl⟩ | ⟨hall, rfl⟩
        · exact List.mem_map.mpr ⟨(meth, us),
            List.mem_filter.mpr ⟨hus, by simp [gInclude, hne, hurl]⟩, rfl⟩
        · exfalso
          apply hemp
          rw [List.isEmpty_iff, List.map_eq_nil_iff, List.filter_eq_nil_iff]
          intro q hq
          have hcond := hall q hq
          simp [gInclude]
          tauto


/-- Registered paths by method for the C10 witness. -/
def w10paths : List (String × List String) :=
  [("GET", ["/a", "/b"]), ("OPTIONS", ["/a"]), ("POST", ["/a"]),
    ("DELETE", ["/b"])]

/-- C10 witness: for url `/a` registered under GET, OPTIONS and POST, the
built view sets the Allow header and wraps the view as stated. -/
theorem options_view_allow_header_witness :
    (buildOptionsView "/a" emptyView w10paths baseCtx
        = emptyView (baseCtx.setHeader HeaderAllow
            (optionsAllowValue "/a" w10paths))
      ∧ (baseCtx.setHeader HeaderAllow
          (optionsAllowValue "/a" w10paths)).getHeader HeaderAllow
        = some (optionsAllowValue "/a" w10paths)
      ∧ optionsAllowValue "/a" w10paths
        = String.intercalate ", " (sortStrings (optionsAllowBase "/a" w10paths))
      ∧ List.Sorted (fun a b : String => a ≤ b)
          (sortStrings (optionsAllowBase "/a" w10paths))
      ∧ ∀ meth, meth ∈ sortStrings (optionsAllowBase "/a" w10paths) ↔
          ((meth ≠ MethodOptions ∧ ∃ us, (meth, us) ∈ w10paths ∧ "/a" ∈ us)
            ∨ ((∀ q ∈ w10paths, q.1 = MethodOptions ∨ "/a" ∉ q.2)
              ∧ meth = MethodOptions))) :=
  options_view_allow_header "/a" emptyView w10paths baseCtx

end Atreugo
